import Mathlib

/-!
Verification development for the dexYCB data-loader core
(`dexYCB_loader/loader_utils.py`, `dexYCB_loader/type_split.py`,
`dex_ycb_loader/dexycbloader.py`).

The Python code is shallowly embedded: numpy arrays become lists, Python
dicts become association lists with last-binding-wins lookup (a Python dict
comprehension overwrites earlier duplicate keys), raised exceptions become
`Option`/`Except` error values, and float arithmetic is modelled over `ℝ`.
-/

namespace DexYCB

/-! ### Generic helpers: Python dicts and failing comprehensions -/

/-- Lookup in the dict built from `pairs` in iteration order: a later binding
for the same key overwrites an earlier one, so the lookup scans the tail
(later bindings) first.  `none` models a Python `KeyError`. -/
def dget {κ ν : Type} [DecidableEq κ] : List (κ × ν) → κ → Option ν
  | [], _ => none
  | p :: rest, k =>
    match dget rest k with
    | some v => some v
    | none => if p.1 = k then some p.2 else none

/-- Evaluate `f` on the list elements left to right, propagating the first
failure; models a Python comprehension/generator whose body may raise. -/
def mapOpt {α β : Type} (f : α → Option β) : List α → Option (List β)
  | [] => some []
  | a :: as =>
    match f a, mapOpt f as with
    | some b, some bs => some (b :: bs)
    | _, _ => none

/-- Evaluate `f` left to right in the `Except` monad, propagating the first
raised exception; models a Python list comprehension whose body may raise. -/
def mapExcept {ε α β : Type} (f : α → Except ε β) : List α → Except ε (List β)
  | [] => .ok []
  | a :: as =>
    match f a, mapExcept f as with
    | .ok b, .ok bs => .ok (b :: bs)
    | .error e, _ => .error e
    | .ok _, .error e => .error e

/-! ### `loader_utils.py`: joint conventions and the reindexer -/

/-- A semantic joint label `(finger, k)`: position `k` within a finger. -/
abbrev Sem := String × Nat

/-- `JointConvention.__init__`: a name plus `layout`, a dict from finger name
to an ordered list of joint indices.  The bundled proof models the fact that
a Python dict cannot hold two bindings for the same finger name. -/
structure JointConvention : Type where
  name : String
  layout : List (String × List Nat)
  fingers_nodup : (layout.map Prod.fst).Nodup

/-- The key/value pairs of `self._idx_to_sem =
`{idx: (finger, k) for finger, ids in layout.items() for k, idx in enumerate(ids)}`,
in dict-comprehension iteration order. -/
def idxSemPairs (c : JointConvention) : List (Nat × Sem) :=
  c.layout.flatMap fun fi => fi.2.enum.map fun ke => (ke.2, (fi.1, ke.1))

/-- The key/value pairs of `self._sem_to_idx =
`{(finger, k): idx for finger, ids in layout.items() for k, idx in enumerate(ids)}`. -/
def semIdxPairs (c : JointConvention) : List (Sem × Nat) :=
  c.layout.flatMap fun fi => fi.2.enum.map fun ke => ((fi.1, ke.1), ke.2)

/-- `self._idx_to_sem[i]`; `none` models a `KeyError`. -/
def JointConvention.idx_to_sem (c : JointConvention) (i : Nat) : Option Sem :=
  dget (idxSemPairs c) i

/-- `self._sem_to_idx[s]`; `none` models a `KeyError`. -/
def JointConvention.sem_to_idx (c : JointConvention) (s : Sem) : Option Nat :=
  dget (semIdxPairs c) s

/-- The joint indices mentioned by the layout (the keys of `_idx_to_sem`,
with multiplicity). -/
def idxsOf (c : JointConvention) : List Nat := (idxSemPairs c).map Prod.fst

/-- The semantic labels mentioned by the layout (the values of `_idx_to_sem`). -/
def semsOf (c : JointConvention) : List Sem := (idxSemPairs c).map Prod.snd

/-- `self.size = max(self._idx_to_sem) + 1`; `none` models the `ValueError`
Python's `max` raises on an empty dict. -/
def JointConvention.size? (c : JointConvention) : Option Nat :=
  (idxsOf c).max?.map (· + 1)

/-- One entry of `JointReindexer.perm`:
`src.sem_to_idx()[dst.idx_to_sem()[i]]`; `none` models a `KeyError`. -/
def permLookup (src dst : JointConvention) (i : Nat) : Option Nat :=
  (dst.idx_to_sem i).bind src.sem_to_idx

/-- The state of a constructed `JointReindexer`. -/
structure JointReindexer : Type where
  src : JointConvention
  dst : JointConvention
  perm : List Nat

/-- `JointReindexer.__init__(src, dst)`:
`perm = np.fromiter((src.sem_to_idx()[dst.idx_to_sem()[i]] for i in range(dst.size)), ...)`.
`none` models a raised `KeyError`/`ValueError` during construction. -/
def mkReindexer (src dst : JointConvention) : Option JointReindexer := do
  let N ← dst.size?
  let perm ← mapOpt (permLookup src dst) (List.range N)
  pure ⟨src, dst, perm⟩

/-- `JointReindexer.apply(joints)` on one batch slice: `joints` is the list of
rows along the `N` axis (each row of type `α` stands for the trailing `D`
values together with any leading batch coordinates, which numpy's
`joints[..., perm, :]` maps over pointwise).  The guard models the
`ValueError` raised when `joints.shape[-2] != perm.size`; `mapOpt` of `get?`
models the fancy-indexing gather. -/
def applyReindex {α : Type} (r : JointReindexer) (joints : List α) : Option (List α) :=
  if joints.length = r.perm.length then mapOpt (fun i => joints.get? i) r.perm else none

/-- `np.argsort(p)`: the indices `0..len-1` sorted by their value in `p`.
For the permutations this code applies it to there are no ties, so the
choice of (stable) sorting algorithm is irrelevant. -/
def argsort (p : List Nat) : List Nat :=
  List.insertionSort (fun a b => p.getD a 0 ≤ p.getD b 0) (List.range p.length)

/-- `JointReindexer.inverse()`: swap `src`/`dst`, `inv.perm = np.argsort(self.perm)`. -/
def JointReindexer.inverse (r : JointReindexer) : JointReindexer :=
  ⟨r.dst, r.src, argsort r.perm⟩

/-- The layout mentions every joint index in `0..N-1` exactly once
(the data-model invariant "indices must partition `0..N-1`"). -/
def partitionsRange (c : JointConvention) (N : Nat) : Prop :=
  (idxsOf c).Perm (List.range N)

/-- The two conventions cover the same semantic label set. -/
def sameSems (a b : JointConvention) : Prop :=
  (∀ s ∈ semsOf a, s ∈ semsOf b) ∧ (∀ s ∈ semsOf b, s ∈ semsOf a)

instance (c : JointConvention) (N : Nat) : Decidable (partitionsRange c N) :=
  inferInstanceAs (Decidable ((idxsOf c).Perm (List.range N)))

instance (a b : JointConvention) : Decidable (sameSems a b) :=
  inferInstanceAs
    (Decidable ((∀ s ∈ semsOf a, s ∈ semsOf b) ∧ ∀ s ∈ semsOf b, s ∈ semsOf a))

/-- The built-in `MANO21` convention constant from `loader_utils.py`. -/
def MANO21 : JointConvention :=
  ⟨"MANO21/OpenPose",
   [("wrist", [0]),
    ("thumb", [1, 2, 3, 4]),
    ("index", [5, 6, 7, 8]),
    ("middle", [9, 10, 11, 12]),
    ("ring", [13, 14, 15, 16]),
    ("pinky", [17, 18, 19, 20])],
   by decide⟩

/-- The built-in `HO3D` convention constant from `loader_utils.py`. -/
def HO3D : JointConvention :=
  ⟨"HO3D",
   [("wrist", [0]),
    ("index", [1, 2, 3, 17]),
    ("middle", [4, 5, 6, 18]),
    ("ring", [10, 11, 12, 19]),
    ("pinky", [7, 8, 9, 20]),
    ("thumb", [13, 14, 15, 16])],
   by decide⟩

/-- The shipped `MANO_TO_HO3D = JointReindexer(MANO21, HO3D)` constant,
with its permutation written out (checked below against `mkReindexer`). -/
def MANO_TO_HO3D : JointReindexer :=
  ⟨MANO21, HO3D,
   [0, 5, 6, 7, 9, 10, 11, 17, 18, 19, 13, 14, 15, 1, 2, 3, 4, 8, 12, 16, 20]⟩

/-! ### `loader_utils.py`: the YCB object registry -/

/-- Errors raised by the loader; each constructor models one `raise`
site (`ValueError`, `IndexError`, `KeyError`) in the Python sources. -/
inductive LoaderError : Type
  /-- `ValueError(f"Unknown YCB id: {ycb_id}")` in `YCBRegistry.id_to_name`. -/
  | unknownId (id : Int)
  /-- `ValueError(f"Unknown YCB name: {name}")` in `YCBRegistry.name_to_id`. -/
  | unknownName (name : String)
  /-- `ValueError("ycb_ids is empty or missing in meta.yml")` in `set_ycb`. -/
  | emptyYcbIds
  /-- `ValueError("ycb_grasp_ind out of range ...")` in `set_ycb`. -/
  | invalidGraspIndex (idx : Int) (len : Nat)
  /-- `IndexError` from `side[0]` in `set_side` when `mano_sides` is empty. -/
  | emptySides
  /-- `ValueError`/`KeyError`/`IndexError` raised while reading `pose.npz`
  (`read_pose`, `set_mano`, `split_pose_y`). -/
  | poseMalformed
  deriving DecidableEq

/-- The fixed id -> name table passed to `YCBRegistry` in `loader_utils.py`
(the default registry `YCB`), in source order. -/
def ycbTable : List (Int × String) :=
  [(1, "002_master_chef_can"),
   (2, "003_cracker_box"),
   (3, "004_sugar_box"),
   (4, "005_tomato_soup_can"),
   (5, "006_mustard_bottle"),
   (6, "007_tuna_fish_can"),
   (7, "008_pudding_box"),
   (8, "009_gelatin_box"),
   (9, "010_potted_meat_can"),
   (10, "011_banana"),
   (11, "019_pitcher_base"),
   (12, "021_bleach_cleanser"),
   (13, "024_bowl"),
   (14, "025_mug"),
   (15, "035_power_drill"),
   (16, "036_wood_block"),
   (17, "037_scissors"),
   (18, "040_large_marker"),
   (19, "051_large_clamp"),
   (20, "052_extra_large_clamp"),
   (21, "061_foam_brick")]

/-- `YCBRegistry._name_to_id`, built as `{v: k for k, v in id_to_name.items()}`. -/
def ycbNameTable : List (String × Int) := ycbTable.map fun p => (p.2, p.1)

/-- `YCB.id_to_name` / `ycb_id_to_name`: dict lookup, `ValueError` if absent. -/
def ycb_id_to_name (id : Int) : Except LoaderError String :=
  match dget ycbTable id with
  | some n => .ok n
  | none => .error (.unknownId id)

/-- `YCB.name_to_id` / `ycb_name_to_id`: dict lookup, `ValueError` if absent. -/
def ycb_name_to_id (name : String) : Except LoaderError Int :=
  match dget ycbNameTable name with
  | some i => .ok i
  | none => .error (.unknownName name)

/-! ### `dexycbloader.py`: metadata parsing stages -/

/-- The fields `DexYCBLoader.set_ycb` assigns on success.  The source keeps
the confusing names: `grasp_ind` stores the *index* into `ycb_ids`, while
`grasp_idx` stores the YCB *id* found at that index. -/
structure YcbInfo : Type where
  ycb_ids : List Int
  grasp_ind : Nat
  grasp_idx : Int
  ycb_names : List String
  objName : String
  deriving DecidableEq

/-- `DexYCBLoader.set_ycb`: reads `meta.get("ycb_ids", [])` (a missing key
gives the empty list, rejected below) and `meta.get("ycb_grasp_ind", -1)`
(`none` models a missing key, defaulted to `-1`), validates,
then resolves all names and the grasped object's name via the registry.
`ycb_ids.getD i 0` models `ycb_ids[i]`; the preceding range guard makes the
default irrelevant. -/
def set_ycb (ycb_ids : List Int) (ycb_grasp_ind? : Option Int) :
    Except LoaderError YcbInfo :=
  let grasp_idx : Int := ycb_grasp_ind?.getD (-1)
  if ycb_ids.isEmpty then .error .emptyYcbIds
  else if grasp_idx < 0 ∨ (ycb_ids.length : Int) ≤ grasp_idx then
    .error (.invalidGraspIndex grasp_idx ycb_ids.length)
  else
    let gid : Int := ycb_ids.getD grasp_idx.toNat 0
    match mapExcept ycb_id_to_name ycb_ids with
    | .error e => .error e
    | .ok names =>
      match ycb_id_to_name gid with
      | .error e => .error e
      | .ok objName => .ok ⟨ycb_ids, grasp_idx.toNat, gid, names, objName⟩

/-- `DexYCBLoader.set_side`: `side = list(meta.get("mano_sides", []))`,
`self.side = side[0]` (`IndexError` when empty), then
`self.num_frames = meta.get("num_frames", 1)`. -/
def set_side (mano_sides : List String) (num_frames? : Option Nat) :
    Except LoaderError (String × Nat) :=
  match mano_sides with
  | [] => .error .emptySides
  | s :: _ => .ok (s, num_frames?.getD 1)

/-! ### `loader_utils.py`: quaternion -> axis-angle -> rotation vector

`quaternionToAxisAngle` is vectorized over arbitrary batch shapes by
elementwise masking; it is embedded here per element, floats as reals. -/

/-- One quaternion `(e0, e1, e2, e3)`, scalar (`w`) first. -/
structure Quat : Type where
  e0 : ℝ
  e1 : ℝ
  e2 : ℝ
  e3 : ℝ

/-- `n = np.linalg.norm(e)` for `e = (e1, e2, e3)`. -/
noncomputable def qNorm (q : Quat) : ℝ :=
  Real.sqrt (q.e1 ^ 2 + q.e2 ^ 2 + q.e3 ^ 2)

/-- The axis row: `e / n` where `n != 0`, the documented arbitrary default
`(1, 0, 0)` where `n == 0`. -/
noncomputable def quatAxis (q : Quat) : ℝ × ℝ × ℝ :=
  if qNorm q = 0 then (1, 0, 0)
  else (q.e1 / qNorm q, q.e2 / qNorm q, q.e3 / qNorm q)

/-- The angle: `π` where `e0 == 0` (exact test), else `2 * atan(n / e0)`. -/
noncomputable def quatAngle (q : Quat) : ℝ :=
  if q.e0 = 0 then Real.pi else 2 * Real.arctan (qNorm q / q.e0)

/-- Euclidean norm of a 3-vector. -/
noncomputable def norm3 (v : ℝ × ℝ × ℝ) : ℝ :=
  Real.sqrt (v.1 ^ 2 + v.2.1 ^ 2 + v.2.2 ^ 2)

/-- `axisAngleToRotvec`: `r = axis * angle` (one element). -/
noncomputable def axisAngleToRotvec (axis : ℝ × ℝ × ℝ) (angle : ℝ) : ℝ × ℝ × ℝ :=
  (axis.1 * angle, axis.2.1 * angle, axis.2.2 * angle)

/-! ### `dexycbloader.py`: pose archive parsing -/

/-- The per-frame arrays `read_pose` leaves on the loader. -/
structure PoseData : Type where
  handPose : List (List ℝ)
  handTrans : List (List ℝ)
  objRot : List (ℝ × ℝ × ℝ)
  objTrans : List (List ℝ)

/-- `DexYCBLoader.set_mano`: `p = pose_m[:, 0, :]` (fails on an empty second
axis), `handPose = p[:, :48]`, `handTrans = p[:, 48:51]`.  numpy basic
slicing clamps like `take`/`drop`. -/
def set_mano (pose_m : List (List (List ℝ))) :
    Option (List (List ℝ) × List (List ℝ)) :=
  match mapOpt (fun frame => frame.get? 0) pose_m with
  | none => none
  | some p => some (p.map (fun r => r.take 48), p.map fun r => (r.drop 48).take 3)

/-- Build the quaternion from the first four entries of a length-7 row
(`X[:, :4]` in wxyz order); callers guarantee the length via the shape
check, making the defaults irrelevant. -/
noncomputable def quatOfRow (row : List ℝ) : Quat :=
  ⟨row.getD 0 0, row.getD 1 0, row.getD 2 0, row.getD 3 0⟩

/-- `DexYCBLoader.split_pose_y(pose_y, obj_idx)`: checks the `(T, N, 7)`
shape (`ValueError` otherwise, modelled by the row-length check), selects
object `obj_idx` per frame (`IndexError` if out of range), splits into
quaternion/translation and runs the axis-angle conversion. -/
noncomputable def split_pose_y (pose_y : List (List (List ℝ))) (obj_idx : Nat) :
    Option (List (ℝ × ℝ × ℝ) × List (List ℝ) × List (List ℝ)) :=
  if pose_y.all (fun frame => frame.all fun row => row.length == 7) then
    match mapOpt (fun frame => frame.get? obj_idx) pose_y with
    | none => none
    | some X =>
      some (X.map (fun row =>
              axisAngleToRotvec (quatAxis (quatOfRow row)) (quatAngle (quatOfRow row))),
            X.map (fun row => (row.drop 4).take 3),
            X.map fun row => row.take 4)
  else none

/-- `DexYCBLoader.read_pose` after the npz is loaded: `set_mano(pose_m)` then
`set_ycb_pos(pose_y)` (which calls `split_pose_y(pose_y, grasp_ind)`).
`set_joints` delegates to the external MANO evaluator, which the spec
excludes from the core; it does not touch these four arrays. -/
noncomputable def read_pose (pose_m pose_y : List (List (List ℝ))) (grasp_ind : Nat) :
    Option PoseData :=
  match set_mano pose_m with
  | none => none
  | some (handPose, handTrans) =>
    match split_pose_y pose_y grasp_ind with
    | none => none
    | some (objRot, objTrans, _) => some ⟨handPose, handTrans, objRot, objTrans⟩

/-- A parsed sequence record (the loader fields the claims are about). -/
structure SeqRecord : Type where
  side : String
  num_frames : Nat
  ycb : YcbInfo
  pose : PoseData

/-- `DexYCBLoader.__init__` -> `read_meta` (`set_ycb`, `set_side`) then
`read_pose`, on already-loaded documents.  `set_mano_beta` only loads the
calibration file from disk into `handBeta`; it is omitted here because it
touches none of the fields below. -/
noncomputable def parseSequence (mano_sides : List String) (num_frames? : Option Nat)
    (ycb_ids : List Int) (ycb_grasp_ind? : Option Int)
    (pose_m pose_y : List (List (List ℝ))) : Except LoaderError SeqRecord :=
  match set_ycb ycb_ids ycb_grasp_ind? with
  | .error e => .error e
  | .ok ycb =>
    match set_side mano_sides num_frames? with
    | .error e => .error e
    | .ok (side, num_frames) =>
      match read_pose pose_m pose_y ycb.grasp_ind with
      | some pose => .ok ⟨side, num_frames, ycb, pose⟩
      | none => .error .poseMalformed

/-! ### `type_split.py`: the hand split index -/

/-- One scanned `meta.yml`: the sequence directory (as the path fragment the
scan would record) and its `mano_sides` list. -/
structure MetaFile : Type where
  path : String
  sides : List String
  deriving DecidableEq

/-- `sorted(set(xs))`. -/
def sortedDedup (xs : List String) : List String :=
  List.insertionSort (fun a b => a ≤ b) xs.dedup

/-- The dict `HandSplitIndex.split` returns. -/
structure SplitResult : Type where
  right : List String
  left : List String
  deriving DecidableEq

/-- `HandSplitIndex.split` on the scanned metadata list (one entry per
`meta.yml`, in scan order): append each path to `right`/`left` when
`"right"`/`"left"` is in its `mano_sides`, then `sorted(set(...))` each. -/
def splitScan (metas : List MetaFile) : SplitResult :=
  ⟨sortedDedup ((metas.filter fun m => m.sides.contains "right").map MetaFile.path),
   sortedDedup ((metas.filter fun m => m.sides.contains "left").map MetaFile.path)⟩

/-- The YAML manifest `HandSplitIndex.write_yaml` produces: `data_root` plus
the two CSV paths (the typed structure models the three required keys). -/
structure Manifest : Type where
  data_root : String
  left : String
  right : String
  deriving DecidableEq

/-- `write_csvs` writes one CSV row per path; for these single-field rows the
CSV encoding is the row text itself. -/
def write_csv_rows (paths : List String) : List String := paths

/-- `write_yaml` (as called from `build`): CSV names stored relative to the
manifest, i.e. the fixed file names. -/
def write_yaml (root : String) : Manifest :=
  ⟨root, "left_side.csv", "right_side.csv"⟩

/-- The two listing files `build` leaves next to the manifest, as a
name -> rows directory. -/
def persistFiles (sp : SplitResult) : List (String × List String) :=
  [("left_side.csv", write_csv_rows sp.left),
   ("right_side.csv", write_csv_rows sp.right)]

/-- Errors raised by `read_side_paths`. -/
inductive LoadError : Type
  /-- `ValueError("side must be 'left' or 'right'")`. -/
  | badSide
  /-- `FileNotFoundError` for the side's CSV. -/
  | listingNotFound
  deriving DecidableEq

/-- Python `str.strip()` on the ASCII text these CSVs contain: drop
whitespace characters from both ends of the character list. -/
def pyStrip (s : String) : String :=
  ⟨((s.data.dropWhile Char.isWhitespace).reverse.dropWhile Char.isWhitespace).reverse⟩

/-- Python `str.lower()` on the ASCII side names used here. -/
def pyLower (s : String) : String :=
  ⟨s.data.map Char.toLower⟩

/-- Python `raw.startswith("#")`. -/
def startsWithHash (s : String) : Bool :=
  match s.data with
  | [] => false
  | c :: _ => c == '#'

/-- One iteration of the row loop in `read_side_paths`: `continue` on an
empty row (a blank CSV line parses to `[]`), strip, skip blank or `#`
comment entries, else keep the fragment. -/
def parseRow (r : String) : Option String :=
  if r = "" then none
  else
    let raw := pyStrip r
    if raw = "" then none
    else if startsWithHash raw then none
    else some raw

/-- The row loop of `read_side_paths`. -/
def parseListing (rows : List String) : List String := rows.filterMap parseRow

/-- `HandSplitIndex.read_side_paths` with `absolute=False` (fragments are
returned as written, relative to `data_root`): normalize the side, pick the
side's CSV from the manifest, look it up among the written files
(`FileNotFoundError` if absent), and parse its rows. -/
def read_side_paths (man : Manifest) (files : List (String × List String))
    (side : String) : Except LoadError (List String) :=
  let side_norm := pyLower (pyStrip side)
  if side_norm = "left" ∨ side_norm = "right" then
    let csvName := if side_norm = "left" then man.left else man.right
    match dget files csvName with
    | some rows => .ok (parseListing rows)
    | none => .error .listingNotFound
  else .error .badSide

end DexYCB

namespace DexYCB

/-! ### Helper theorems about the generic dict/list combinators -/

theorem dget_mem {κ ν : Type} [DecidableEq κ] {ps : List (κ × ν)} {k : κ} {v : ν}
    (h : dget ps k = some v) : (k, v) ∈ ps := by
  induction ps with
  | nil => simp [dget] at h
  | cons p rest ih =>
    simp only [dget] at h
    rcases hrest : dget rest k with _ | w
    · rw [hrest] at h
      by_cases hk : p.1 = k
      · rw [if_pos hk] at h
        have hv : p.2 = v := by injection h
        exact List.mem_cons.mpr (Or.inl (by rw [← hk, ← hv]))
      · rw [if_neg hk] at h
        exact absurd h (by simp)
    · rw [hrest] at h
      have hv : w = v := by injection h
      subst hv
      exact List.mem_cons_of_mem _ (ih hrest)

theorem dget_eq_none_iff {κ ν : Type} [DecidableEq κ] {ps : List (κ × ν)} {k : κ} :
    dget ps k = none ↔ k ∉ ps.map Prod.fst := by
  induction ps with
  | nil => simp [dget]
  | cons p rest ih =>
    simp only [dget, List.map_cons, List.mem_cons]
    rcases hrest : dget rest k with _ | w
    · have hnotin : k ∉ rest.map Prod.fst := ih.mp hrest
      by_cases hk : p.1 = k
      · rw [if_pos hk]
        simp [hk, hnotin]
      · rw [if_neg hk]
        simp only [true_iff, eq_self_iff_true]
        intro hor
        rcases hor with hor | hor
        · exact hk hor.symm
        · exact hnotin hor
    · have hin : k ∈ rest.map Prod.fst := by
        by_contra hno
        rw [← ih, hrest] at hno
        exact absurd hno (by simp)
      simp [hin]

theorem dget_isSome_of_mem_keys {κ ν : Type} [DecidableEq κ] {ps : List (κ × ν)} {k : κ}
    (h : k ∈ ps.map Prod.fst) : ∃ v, dget ps k = some v := by
  rcases hd : dget ps k with _ | v
  · exact absurd h (dget_eq_none_iff.mp hd)
  · exact ⟨v, rfl⟩

theorem dget_eq_some_of_mem {κ ν : Type} [DecidableEq κ] {ps : List (κ × ν)} {k : κ} {v : ν}
    (hnd : (ps.map Prod.fst).Nodup) (h : (k, v) ∈ ps) : dget ps k = some v := by
  induction ps with
  | nil => simp at h
  | cons p rest ih =>
    simp only [List.map_cons, List.nodup_cons] at hnd
    rcases List.mem_cons.mp h with hp | hrest
    · have hk : p.1 = k := by rw [← hp]
      have hnone : dget rest k = none := by
        rw [dget_eq_none_iff]
        rw [← hk]
        exact hnd.1
      simp only [dget, hnone, hk, if_pos]
      rw [← hp]
    · have := ih hnd.2 hrest
      simp only [dget, this]

theorem mapOpt_eq_map {α β : Type} {f : α → Option β} {l : List α} (g : α → β)
    (h : ∀ a ∈ l, f a = some (g a)) : mapOpt f l = some (l.map g) := by
  induction l with
  | nil => rfl
  | cons a as ih =>
    have ha := h a (List.mem_cons_self a as)
    have has := ih fun x hx => h x (List.mem_cons_of_mem a hx)
    simp [mapOpt, ha, has]

theorem mapOpt_length {α β : Type} {f : α → Option β} {l : List α} {ys : List β}
    (h : mapOpt f l = some ys) : ys.length = l.length := by
  induction l generalizing ys with
  | nil => simp [mapOpt] at h; simp [← h]
  | cons a as ih =>
    simp only [mapOpt] at h
    rcases ha : f a with _ | b <;> rw [ha] at h
    · simp at h
    · rcases has : mapOpt f as with _ | bs <;> rw [has] at h
      · simp at h
      · simp at h
        subst h
        simp [ih has]

theorem mapOpt_get? {α β : Type} {f : α → Option β} {l : List α} {ys : List β}
    (h : mapOpt f l = some ys) (k : Nat) (hk : k < l.length) :
    ∃ (hy : k < ys.length), f (l.get ⟨k, hk⟩) = some (ys.get ⟨k, hy⟩) := by
  induction l generalizing ys k with
  | nil => simp at hk
  | cons a as ih =>
    simp only [mapOpt] at h
    rcases ha : f a with _ | b <;> rw [ha] at h
    · simp at h
    · rcases has : mapOpt f as with _ | bs <;> rw [has] at h
      · simp at h
      · simp at h
        subst h
        match k with
        | 0 => exact ⟨by simp, by simpa using ha⟩
        | k + 1 =>
          have hk' : k < as.length := by simpa using hk
          obtain ⟨hy, hfy⟩ := ih has k hk'
          exact ⟨by simpa using hy, by simpa using hfy⟩

theorem mapExcept_ok_of_forall {ε α β : Type} {f : α → Except ε β} {l : List α}
    (h : ∀ a ∈ l, ∃ b, f a = .ok b) : ∃ bs, mapExcept f l = .ok bs := by
  induction l with
  | nil => exact ⟨[], rfl⟩
  | cons a as ih =>
    obtain ⟨b, hb⟩ := h a (List.mem_cons_self a as)
    obtain ⟨bs, hbs⟩ := ih fun x hx => h x (List.mem_cons_of_mem a hx)
    exact ⟨b :: bs, by simp [mapExcept, hb, hbs]⟩

theorem mapOpt_isSome_of_forall {α β : Type} {f : α → Option β} {l : List α}
    (h : ∀ a ∈ l, ∃ b, f a = some b) : ∃ ys, mapOpt f l = some ys := by
  induction l with
  | nil => exact ⟨[], rfl⟩
  | cons a as ih =>
    obtain ⟨b, hb⟩ := h a (List.mem_cons_self a as)
    obtain ⟨bs, hbs⟩ := ih fun x hx => h x (List.mem_cons_of_mem a hx)
    exact ⟨b :: bs, by simp [mapOpt, hb, hbs]⟩

theorem ycb_id_to_name_ok_of_mem {id : Int} (h : id ∈ ycbTable.map Prod.fst) :
    ∃ n, ycb_id_to_name id = .ok n ∧ (id, n) ∈ ycbTable := by
  obtain ⟨n, hn⟩ := dget_isSome_of_mem_keys h
  refine ⟨n, ?_, dget_mem hn⟩
  unfold ycb_id_to_name
  rw [hn]

/-! ### Structure of the convention lookup tables -/

theorem idxsOf_eq (c : JointConvention) : idxsOf c = c.layout.flatMap fun fi => fi.2 := by
  unfold idxsOf idxSemPairs
  rw [List.map_flatMap]
  congr 1
  funext fi
  rw [List.map_map]
  exact List.enum_map_snd fi.2

theorem semsOf_eq (c : JointConvention) :
    semsOf c = c.layout.flatMap fun fi => fi.2.enum.map fun ke => (fi.1, ke.1) := by
  unfold semsOf idxSemPairs
  rw [List.map_flatMap]
  congr 1
  funext fi
  rw [List.map_map]
  rfl

theorem semIdxPairs_eq_swap (c : JointConvention) :
    semIdxPairs c = (idxSemPairs c).map fun p => (p.2, p.1) := by
  unfold semIdxPairs idxSemPairs
  rw [List.map_flatMap]
  congr 1
  funext fi
  rw [List.map_map]
  rfl

theorem semIdxPairs_keys (c : JointConvention) :
    (semIdxPairs c).map Prod.fst = semsOf c := by
  rw [semIdxPairs_eq_swap, List.map_map]
  rfl

theorem mem_semIdxPairs {c : JointConvention} {s : Sem} {i : Nat} :
    (s, i) ∈ semIdxPairs c ↔ (i, s) ∈ idxSemPairs c := by
  rw [semIdxPairs_eq_swap]
  simp only [List.mem_map, Prod.mk.injEq]
  constructor
  · rintro ⟨⟨pa, pb⟩, hp, h2, h1⟩
    subst h1
    subst h2
    exact hp
  · intro h
    exact ⟨(i, s), h, rfl, rfl⟩

/-- Because a Python dict cannot bind the same finger name twice, the
semantic labels `(finger, k)` generated by the layout are pairwise distinct. -/
theorem semsOf_nodup (c : JointConvention) : (semsOf c).Nodup := by
  rw [semsOf_eq]
  rw [List.nodup_flatMap]
  constructor
  · intro fi _
    have henum : fi.2.enum.Nodup := (List.nodup_enum_map_fst fi.2).of_map
    exact henum.map_on fun x hx y hy h =>
      List.inj_on_of_nodup_map (List.nodup_enum_map_fst fi.2) hx hy (congrArg Prod.snd h)
  · have hpw : c.layout.Pairwise fun a b => a.1 ≠ b.1 :=
      List.pairwise_map.mp c.fingers_nodup
    refine hpw.imp ?_
    intro a b hab
    intro x hxa hxb
    obtain ⟨ka, _, hka⟩ := List.mem_map.mp hxa
    obtain ⟨kb, _, hkb⟩ := List.mem_map.mp hxb
    apply hab
    calc a.1 = x.1 := (congrArg Prod.fst hka)
    _ = b.1 := (congrArg Prod.fst hkb).symm

theorem size?_eq_of_partition {c : JointConvention} {N : Nat}
    (hd : partitionsRange c N) (hN : 0 < N) : c.size? = some N := by
  have hmax : (idxsOf c).max? = some (N - 1) := by
    rw [List.max?_eq_some_iff (fun a => le_refl a) (fun a b => max_choice a b)
      (fun a b c => max_le_iff)]
    constructor
    · exact hd.mem_iff.mpr (List.mem_range.mpr (by omega))
    · intro b hb
      have := List.mem_range.mp (hd.mem_iff.mp hb)
      omega
  unfold JointConvention.size?
  rw [hmax]
  have : N - 1 + 1 = N := by omega
  simp [this]

/-- The heart of claims about `JointReindexer.__init__`: under the data-model
invariant on both conventions and coverage of the destination labels, the
constructor succeeds and its permutation hits `0..N-1` exactly once each. -/
theorem reindexer_spec {src dst : JointConvention} {N : Nat} (hN : 0 < N)
    (hs : partitionsRange src N) (hd : partitionsRange dst N)
    (hsem : ∀ s ∈ semsOf dst, s ∈ semsOf src) :
    ∃ perm, mkReindexer src dst = some ⟨src, dst, perm⟩ ∧ perm.Perm (List.range N) := by
  have hdkeys : (idxsOf dst).Nodup := hd.nodup_iff.mpr (List.nodup_range N)
  have hskeys : (idxsOf src).Nodup := hs.nodup_iff.mpr (List.nodup_range N)
  have hdsems : (semsOf dst).Nodup := semsOf_nodup dst
  have hssems : (semsOf src).Nodup := semsOf_nodup src
  have hpt : ∀ i ∈ List.range N, ∃ j s, permLookup src dst i = some j ∧
      (i, s) ∈ idxSemPairs dst ∧ (j, s) ∈ idxSemPairs src := by
    intro i hi
    have hikey : i ∈ idxsOf dst := hd.mem_iff.mpr hi
    obtain ⟨s, hs1⟩ := dget_isSome_of_mem_keys hikey
    have hmemd : (i, s) ∈ idxSemPairs dst := dget_mem hs1
    have hsd : s ∈ semsOf dst := List.mem_map_of_mem Prod.snd hmemd
    obtain ⟨p, hp, hps⟩ := List.mem_map.mp (hsem s hsd)
    have hmems : (p.1, s) ∈ idxSemPairs src := by
      rw [← hps]
      exact hp
    have hlook : dget (semIdxPairs src) s = some p.1 := by
      apply dget_eq_some_of_mem
      · rw [semIdxPairs_keys]
        exact hssems
      · exact mem_semIdxPairs.mpr hmems
    refine ⟨p.1, s, ?_, hmemd, hmems⟩
    unfold permLookup
    rw [show dst.idx_to_sem i = some s from hs1]
    exact hlook
  have hgs : ∀ i ∈ List.range N,
      permLookup src dst i = some ((permLookup src dst i).getD 0) := by
    intro i hi
    obtain ⟨j, s, hj, _, _⟩ := hpt i hi
    rw [hj]
    rfl
  have hmap : mapOpt (permLookup src dst) (List.range N) =
      some ((List.range N).map fun i => (permLookup src dst i).getD 0) :=
    mapOpt_eq_map _ hgs
  have hpair : ∀ i ∈ List.range N, ∃ s, (i, s) ∈ idxSemPairs dst ∧
      ((permLookup src dst i).getD 0, s) ∈ idxSemPairs src := by
    intro i hi
    obtain ⟨j, s, hj, h1, h2⟩ := hpt i hi
    have hji : (permLookup src dst i).getD 0 = j := by rw [hj]; rfl
    exact ⟨s, h1, hji ▸ h2⟩
  have hinj : ∀ i ∈ List.range N, ∀ i' ∈ List.range N,
      (permLookup src dst i).getD 0 = (permLookup src dst i').getD 0 → i = i' := by
    intro i hi i' hi' hgg
    obtain ⟨s, hd1, hs1⟩ := hpair i hi
    obtain ⟨s', hd2, hs2⟩ := hpair i' hi'
    have hss' : s = s' := by
      have hxy := List.inj_on_of_nodup_map (f := Prod.fst) hskeys hs1 hs2 hgg
      exact congrArg Prod.snd hxy
    subst hss'
    have hxy := List.inj_on_of_nodup_map (f := Prod.snd) hdsems hd1 hd2 rfl
    exact congrArg Prod.fst hxy
  have hsub : ∀ j ∈ (List.range N).map fun i => (permLookup src dst i).getD 0,
      j ∈ List.range N := by
    intro j hj
    obtain ⟨i, hi, hji⟩ := List.mem_map.mp hj
    subst hji
    obtain ⟨s, _, h2⟩ := hpair i hi
    exact hs.mem_iff.mp (List.mem_map_of_mem Prod.fst h2)
  have hnod : ((List.range N).map fun i => (permLookup src dst i).getD 0).Nodup :=
    (List.nodup_range N).map_on hinj
  have hperm : ((List.range N).map fun i => (permLookup src dst i).getD 0).Perm
      (List.range N) := by
    apply List.Subperm.perm_of_length_le
    · exact List.subperm_of_subset hnod fun {a} ha => hsub a ha
    · simp
  refine ⟨_, ?_, hperm⟩
  unfold mkReindexer
  rw [size?_eq_of_partition hd hN]
  simp [hmap]

/-! ### `np.argsort` inverts a permutation -/

theorem argsort_perm_range (p : List Nat) : (argsort p).Perm (List.range p.length) :=
  List.perm_insertionSort _ _

theorem argsort_length (p : List Nat) : (argsort p).length = p.length := by
  have h := (argsort_perm_range p).length_eq
  rw [List.length_range] at h
  exact h

theorem argsort_sorted (p : List Nat) :
    (argsort p).Pairwise fun a b => p.getD a 0 ≤ p.getD b 0 := by
  haveI h1 : IsTotal Nat fun a b => p.getD a 0 ≤ p.getD b 0 := ⟨fun a b => le_total _ _⟩
  haveI h2 : IsTrans Nat fun a b => p.getD a 0 ≤ p.getD b 0 :=
    ⟨fun a b c hab hbc => le_trans hab hbc⟩
  exact List.sorted_insertionSort _ _

theorem map_getD_range (p : List Nat) :
    (List.range p.length).map (fun a => p.getD a 0) = p := by
  apply List.ext_getElem
  · simp
  · intro i h1 h2
    simp only [List.getElem_map, List.getElem_range]
    rw [List.getD_eq_getElem?_getD, List.getElem?_eq_getElem h2]
    rfl

theorem argsort_map_key {p : List Nat} {N : Nat} (hp : p.Perm (List.range N)) :
    (argsort p).map (fun a => p.getD a 0) = List.range N := by
  have hsorted : ((argsort p).map fun a => p.getD a 0).Pairwise (· ≤ ·) :=
    List.pairwise_map.mpr (argsort_sorted p)
  have hperm : ((argsort p).map fun a => p.getD a 0).Perm (List.range N) := by
    have h1 : ((argsort p).map fun a => p.getD a 0).Perm
        ((List.range p.length).map fun a => p.getD a 0) := (argsort_perm_range p).map _
    rw [map_getD_range p] at h1
    exact h1.trans hp
  have hr : (List.range N).Pairwise (· ≤ ·) :=
    (List.pairwise_lt_range N).imp fun h => le_of_lt h
  exact List.eq_of_perm_of_sorted hperm hsorted hr

theorem argsort_mem_lt {p : List Nat} {N : Nat} (hp : p.Perm (List.range N))
    {a : Nat} (ha : a ∈ argsort p) : a < N := by
  have hplen : p.length = N := by simpa using hp.length_eq
  have h := (argsort_perm_range p).mem_iff.mp ha
  rw [hplen] at h
  exact List.mem_range.mp h

theorem argsort_key_getD {p : List Nat} {N : Nat} (hp : p.Perm (List.range N))
    {k : Nat} (hk : k < N) : p.getD ((argsort p).getD k 0) 0 = k := by
  have hplen : p.length = N := by simpa using hp.length_eq
  have hqlen : (argsort p).length = N := by rw [argsort_length, hplen]
  have hkq : k < (argsort p).length := by omega
  have h := congrArg (fun l => l.getD k 0) (argsort_map_key hp)
  simp only at h
  rw [List.getD_eq_getElem?_getD, List.getD_eq_getElem?_getD] at h
  rw [List.getElem?_eq_getElem
    (by simpa [hqlen] using hk : k < ((argsort p).map fun a => p.getD a 0).length)] at h
  rw [List.getElem?_eq_getElem (by simpa using hk : k < (List.range N).length)] at h
  simp only [List.getElem_map, List.getElem_range, Option.getD_some] at h
  have hqd : (argsort p).getD k 0 = (argsort p)[k] := by
    rw [List.getD_eq_getElem?_getD, List.getElem?_eq_getElem hkq]
    rfl
  rw [hqd]
  exact h

theorem argsort_inverse_getD {p : List Nat} {N : Nat} (hp : p.Perm (List.range N))
    {k : Nat} (hk : k < N) : (argsort p).getD (p.getD k 0) 0 = k := by
  have hplen : p.length = N := by simpa using hp.length_eq
  have hpnod : p.Nodup := hp.nodup_iff.mpr (List.nodup_range N)
  have hkp : k < p.length := by omega
  have hpk : p.getD k 0 = p[k] := by
    rw [List.getD_eq_getElem?_getD, List.getElem?_eq_getElem hkp]
    rfl
  have hjN : p[k] < N := by
    have h1 : p[k] ∈ p := List.getElem_mem hkp
    exact List.mem_range.mp (hp.mem_iff.mp h1)
  have hkey := argsort_key_getD hp hjN
  have hqlen : (argsort p).length = N := by rw [argsort_length, hplen]
  have hjq : p[k] < (argsort p).length := by omega
  have hmlt : (argsort p).getD (p[k]) 0 < N := by
    have hin : (argsort p).getD (p[k]) 0 ∈ argsort p := by
      rw [List.getD_eq_getElem?_getD, List.getElem?_eq_getElem hjq]
      exact List.getElem_mem hjq
    exact argsort_mem_lt hp hin
  have hmp : (argsort p).getD (p[k]) 0 < p.length := by omega
  have hpm : p.getD ((argsort p).getD (p[k]) 0) 0 = p[(argsort p).getD (p[k]) 0] := by
    rw [List.getD_eq_getElem?_getD, List.getElem?_eq_getElem hmp]
    rfl
  rw [hpk]
  have heq : p[(argsort p).getD (p[k]) 0] = p[k] := by
    rw [← hpm]
    exact hkey
  exact hpnod.getElem_inj_iff.mp heq

/-- Applying the inverse reindexer and then the original one is the identity,
for any reindexer whose permutation hits `0..N-1` exactly once each. -/
theorem applyReindex_inverse_then_apply {α : Type} (r : JointReindexer) {N : Nat}
    (hp : r.perm.Perm (List.range N)) (x : List α) (hx : x.length = N) :
    (applyReindex r.inverse x).bind (applyReindex r) = some x := by
  have hplen : r.perm.length = N := by simpa using hp.length_eq
  have hqlen : (argsort r.perm).length = N := by rw [argsort_length, hplen]
  have hqmem : ∀ a ∈ argsort r.perm, a < x.length := by
    intro a ha
    rw [hx]
    exact argsort_mem_lt hp ha
  obtain ⟨y, hy⟩ : ∃ y, mapOpt (fun i => x.get? i) (argsort r.perm) = some y := by
    apply mapOpt_isSome_of_forall
    intro a ha
    have h1 := hqmem a ha
    exact ⟨x[a], by simp [List.getElem?_eq_getElem h1]⟩
  have hylen : y.length = N := by rw [mapOpt_length hy, hqlen]
  have happ1 : applyReindex r.inverse x = some y := by
    unfold applyReindex JointReindexer.inverse
    rw [if_pos (by rw [hx, hqlen])]
    exact hy
  have hyk : ∀ k, k < N → y.get? k = x.get? ((argsort r.perm).getD k 0) := by
    intro k hk
    have hkq : k < (argsort r.perm).length := by omega
    obtain ⟨hky, hval⟩ := mapOpt_get? hy k hkq
    have h1 : (argsort r.perm).getD k 0 = (argsort r.perm).get ⟨k, hkq⟩ := by
      rw [List.getD_eq_getElem?_getD, List.getElem?_eq_getElem hkq]
      rfl
    rw [h1, hval]
    exact List.get?_eq_get hky
  have hpmem : ∀ a ∈ r.perm, a < y.length := by
    intro a ha
    rw [hylen]
    exact List.mem_range.mp (hp.mem_iff.mp ha)
  obtain ⟨z, hz⟩ : ∃ z, mapOpt (fun i => y.get? i) r.perm = some z := by
    apply mapOpt_isSome_of_forall
    intro a ha
    have h1 := hpmem a ha
    exact ⟨y[a], by simp [List.getElem?_eq_getElem h1]⟩
  have happ2 : applyReindex r y = some z := by
    unfold applyReindex
    rw [if_pos (by rw [hylen, hplen])]
    exact hz
  have hzlen : z.length = N := by rw [mapOpt_length hz, hplen]
  have hzx : z = x := by
    apply List.ext_get?
    intro n
    by_cases hn : n < N
    · have hnp : n < r.perm.length := by omega
      obtain ⟨hnz, hval⟩ := mapOpt_get? hz n hnp
      have hpn : r.perm.getD n 0 = r.perm.get ⟨n, hnp⟩ := by
        rw [List.getD_eq_getElem?_getD, List.getElem?_eq_getElem hnp]
        rfl
      have hpnN : r.perm.getD n 0 < N := by
        rw [hpn]
        have h1 : r.perm.get ⟨n, hnp⟩ ∈ r.perm := List.get_mem ..
        exact List.mem_range.mp (hp.mem_iff.mp h1)
      have h2 := hyk (r.perm.getD n 0) hpnN
      rw [argsort_inverse_getD hp hn] at h2
      rw [← hpn] at hval
      calc z.get? n = some (z.get ⟨n, hnz⟩) := List.get?_eq_get hnz
        _ = y.get? (r.perm.getD n 0) := hval.symm
        _ = x.get? n := h2
    · push_neg at hn
      rw [List.get?_eq_none.mpr (by omega), List.get?_eq_none.mpr (by omega)]
  rw [happ1]
  simp only [Option.some_bind]
  rw [happ2, hzx]

/-- The shipped constant agrees with running the constructor. -/
theorem mkReindexer_MANO_HO3D : mkReindexer MANO21 HO3D = some MANO_TO_HO3D := by rfl

/-- C1: For any `JointReindexer` built from two conventions covering the same
semantic label set (each layout partitioning `0..N-1`, `N > 0`, as every
constructed `JointConvention` does), and every array with `N` rows along the
joint axis (`N` = the destination convention's size), applying the reindexer
after applying its `inverse()` returns the array exactly:
`apply(inverse().apply(x)) == x`. -/
theorem reindexer_apply_inverse_roundtrip {α : Type} (src dst : JointConvention) (N : Nat)
    (hN : 0 < N) (hs : partitionsRange src N) (hd : partitionsRange dst N)
    (hsem : sameSems src dst) (r : JointReindexer) (hr : mkReindexer src dst = some r)
    (x : List α) (hx : x.length = N) :
    (applyReindex r.inverse x).bind (applyReindex r) = some x := by
  obtain ⟨perm, hmk, hperm⟩ := reindexer_spec hN hs hd hsem.2
  have hr2 : r = ⟨src, dst, perm⟩ := by
    have h := hr.symm.trans hmk
    injection h
  refine applyReindex_inverse_then_apply r ?_ x hx
  rw [hr2]
  exact hperm

/-- Witness for C1 at the shipped `MANO21 -> HO3D` reindexer on the array
`0, 1, ..., 20` of row labels. -/
theorem reindexer_apply_inverse_roundtrip_witness :
    (applyReindex MANO_TO_HO3D.inverse (List.range 21)).bind (applyReindex MANO_TO_HO3D) =
      some (List.range 21) :=
  reindexer_apply_inverse_roundtrip MANO21 HO3D 21 (by decide) (by decide) (by decide)
    (by decide) MANO_TO_HO3D mkReindexer_MANO_HO3D (List.range 21) (by decide)

/-- C6: For any `JointReindexer` constructed from two conventions whose
layouts each partition `0..N-1` (`N > 0`) and which cover the same semantic
label set, construction succeeds and the computed permutation is a bijection
on `0..N-1`: it is a permutation of `range N`, so every index appears
exactly once. -/
theorem mkReindexer_perm_bijection (src dst : JointConvention) (N : Nat) (hN : 0 < N)
    (hs : partitionsRange src N) (hd : partitionsRange dst N) (hsem : sameSems src dst) :
    ∃ r, mkReindexer src dst = some r ∧ r.perm.Perm (List.range N) := by
  obtain ⟨perm, hmk, hperm⟩ := reindexer_spec hN hs hd hsem.2
  exact ⟨⟨src, dst, perm⟩, hmk, hperm⟩

/-- Witness for C6 at the shipped `MANO21`/`HO3D` conventions (`N = 21`). -/
theorem mkReindexer_perm_bijection_witness :
    ∃ r, mkReindexer MANO21 HO3D = some r ∧ r.perm.Perm (List.range 21) :=
  mkReindexer_perm_bijection MANO21 HO3D 21 (by decide) (by decide) (by decide) (by decide)

/-! ### The object registry (C8) -/

/-- C8: For every name in the fixed 21-entry registry,
`id_to_name(name_to_id(name)) == name`; and looking up an id or name absent
from the table fails with the corresponding unknown-key `ValueError` rather
than returning a default. -/
theorem ycb_registry_spec (name : String) (h : name ∈ ycbTable.map Prod.snd) :
    (∃ id, ycb_name_to_id name = .ok id ∧ ycb_id_to_name id = .ok name) ∧
    (∀ id : Int, id ∉ ycbTable.map Prod.fst → ycb_id_to_name id = .error (.unknownId id)) ∧
    (∀ nm : String, nm ∉ ycbTable.map Prod.snd →
      ycb_name_to_id nm = .error (.unknownName nm)) := by
  have hswap : ycbNameTable.map Prod.fst = ycbTable.map Prod.snd := by rfl
  refine ⟨?_, ?_, ?_⟩
  · obtain ⟨p, hp, hps⟩ := List.mem_map.mp h
    have hkeys1 : (ycbNameTable.map Prod.fst).Nodup := by decide
    have hmm : (name, p.1) ∈ ycbNameTable := by
      unfold ycbNameTable
      exact List.mem_map.mpr ⟨p, hp, by rw [hps]⟩
    have hlook : dget ycbNameTable name = some p.1 := dget_eq_some_of_mem hkeys1 hmm
    have hkeys2 : (ycbTable.map Prod.fst).Nodup := by decide
    have hmm2 : (p.1, name) ∈ ycbTable := by
      rw [← hps]
      exact hp
    have hlook2 : dget ycbTable p.1 = some name := dget_eq_some_of_mem hkeys2 hmm2
    refine ⟨p.1, ?_, ?_⟩
    · unfold ycb_name_to_id
      rw [hlook]
    · unfold ycb_id_to_name
      rw [hlook2]
  · intro id hid
    unfold ycb_id_to_name
    rw [dget_eq_none_iff.mpr hid]
  · intro nm hnm
    unfold ycb_name_to_id
    rw [dget_eq_none_iff.mpr (by rwa [hswap])]

/-- Witness for C8 at the registered name of id 10. -/
theorem ycb_registry_spec_witness :
    (∃ id, ycb_name_to_id "011_banana" = .ok id ∧ ycb_id_to_name id = .ok "011_banana") ∧
    (∀ id : Int, id ∉ ycbTable.map Prod.fst → ycb_id_to_name id = .error (.unknownId id)) ∧
    (∀ nm : String, nm ∉ ycbTable.map Prod.snd →
      ycb_name_to_id nm = .error (.unknownName nm)) :=
  ycb_registry_spec "011_banana" (by decide)

/-! ### Metadata-stage error handling (C3, C9, C10) -/

/-- C9: When the metadata lacks the `ycb_grasp_ind` key, `set_ycb` behaves
exactly as if the key were the sentinel `-1`, hence always rejects the
sequence; for a nonempty candidate list the error is the same out-of-range
validation error an explicit `-1` produces. -/
theorem set_ycb_missing_grasp_default (ids : List Int) :
    set_ycb ids none = set_ycb ids (some (-1)) ∧
    (∃ e, set_ycb ids none = .error e) ∧
    (ids ≠ [] → set_ycb ids none = .error (.invalidGraspIndex (-1) ids.length)) := by
  refine ⟨rfl, ?_, ?_⟩
  · cases ids with
    | nil => exact ⟨.emptyYcbIds, rfl⟩
    | cons a as =>
      refine ⟨.invalidGraspIndex (-1) (a :: as).length, ?_⟩
      simp [set_ycb]
  · intro h
    cases ids with
    | nil => exact absurd rfl h
    | cons a as => simp [set_ycb]

/-- Witness for C9 at a concrete singleton candidate list. -/
theorem set_ycb_missing_grasp_default_witness :
    set_ycb [1] none = set_ycb [1] (some (-1)) ∧
    (∃ e, set_ycb [1] none = .error e) ∧
    (([1] : List Int) ≠ [] → set_ycb [1] none = .error (.invalidGraspIndex (-1) 1)) :=
  set_ycb_missing_grasp_default [1]

/-- C10: An empty `mano_sides` list makes `set_side` fail (the unguarded
`side[0]`), while `HandSplitIndex.split` tolerates the same metadata by
listing the sequence on neither side. -/
theorem set_side_empty_fails (nf? : Option Nat) (p : String) :
    set_side [] nf? = .error .emptySides ∧
    (splitScan [⟨p, []⟩]).right = [] ∧ (splitScan [⟨p, []⟩]).left = [] := by
  exact ⟨rfl, rfl, rfl⟩

/-- C3 counterexample: a nonempty candidate list with an in-range grasp
index (0 into `[99]`) still makes `set_ycb` fail, because id 99 is not in
the registry — so "fails iff empty or out-of-range" does not hold as stated. -/
theorem set_ycb_unknown_id_counterexample :
    ([99] : List Int) ≠ [] ∧ ¬((0 : Int) < 0 ∨ ((1 : Nat) : Int) ≤ 0) ∧
    set_ycb [99] (some 0) = .error (.unknownId 99) := by
  refine ⟨by decide, by decide, ?_⟩
  rfl

/-- C3 amended: assuming every candidate id is registered (the only case the
registry-backed name resolution allows through), `set_ycb` fails iff the
candidate list is empty or the grasp index is outside `[0, len)`; on success
the grasped object name is the registry's name for the id at position
`graspedIndex`. -/
theorem set_ycb_validation_spec (ids : List Int) (g? : Option Int)
    (hreg : ∀ id ∈ ids, id ∈ ycbTable.map Prod.fst) :
    ((∃ e, set_ycb ids g? = .error e) ↔
      (ids = [] ∨ g?.getD (-1) < 0 ∨ (ids.length : Int) ≤ g?.getD (-1))) ∧
    ((ids ≠ [] ∧ 0 ≤ g?.getD (-1) ∧ g?.getD (-1) < (ids.length : Int)) →
      ∃ info, set_ycb ids g? = .ok info ∧
        info.grasp_ind = (g?.getD (-1)).toNat ∧
        info.grasp_idx = ids.getD (g?.getD (-1)).toNat 0 ∧
        ycb_id_to_name info.grasp_idx = .ok info.objName) := by
  have hsucc : (ids ≠ [] ∧ 0 ≤ g?.getD (-1) ∧ g?.getD (-1) < (ids.length : Int)) →
      ∃ info, set_ycb ids g? = .ok info ∧
        info.grasp_ind = (g?.getD (-1)).toNat ∧
        info.grasp_idx = ids.getD (g?.getD (-1)).toNat 0 ∧
        ycb_id_to_name info.grasp_idx = .ok info.objName := by
    rintro ⟨hne, hge, hlt⟩
    obtain ⟨ns, hns⟩ : ∃ ns, mapExcept ycb_id_to_name ids = .ok ns := by
      apply mapExcept_ok_of_forall
      intro a ha
      obtain ⟨n, hn, _⟩ := ycb_id_to_name_ok_of_mem (hreg a ha)
      exact ⟨n, hn⟩
    have hlt' : (g?.getD (-1)).toNat < ids.length := by omega
    have hgid_mem : ids.getD (g?.getD (-1)).toNat 0 ∈ ids := by
      rw [List.getD_eq_getElem?_getD, List.getElem?_eq_getElem hlt']
      exact List.getElem_mem hlt'
    obtain ⟨n, hn, _⟩ := ycb_id_to_name_ok_of_mem (hreg _ hgid_mem)
    refine ⟨⟨ids, (g?.getD (-1)).toNat, ids.getD (g?.getD (-1)).toNat 0, ns, n⟩,
      ?_, rfl, rfl, hn⟩
    unfold set_ycb
    rw [if_neg (by simp [List.isEmpty_iff, hne])]
    rw [if_neg (by omega)]
    simp only [hns, hn]
  refine ⟨⟨?_, ?_⟩, hsucc⟩
  · rintro ⟨e, he⟩
    by_contra hcon
    push_neg at hcon
    obtain ⟨h1, h2, h3⟩ := hcon
    obtain ⟨info, hok, _⟩ := hsucc ⟨h1, by omega, by omega⟩
    rw [hok] at he
    exact absurd he (by simp)
  · intro hcases
    rcases hcases with h1 | h2
    · subst h1
      exact ⟨.emptyYcbIds, rfl⟩
    · by_cases hne : ids = []
      · subst hne
        exact ⟨.emptyYcbIds, rfl⟩
      · refine ⟨.invalidGraspIndex (g?.getD (-1)) ids.length, ?_⟩
        unfold set_ycb
        rw [if_neg (by simp [List.isEmpty_iff, hne])]
        rw [if_pos h2]

/-! ### The split index (C4, C5) -/

theorem mem_sortedDedup {a : String} {xs : List String} : a ∈ sortedDedup xs ↔ a ∈ xs := by
  unfold sortedDedup
  rw [(List.perm_insertionSort _ _).mem_iff]
  exact List.mem_dedup

/-- C4: In the scan result, a sequence's path fragment is listed under a side
iff that sequence's recorded `mano_sides` include that side; in particular a
bimanual sequence appears in both lists and a sequence with no recorded
sides in neither. -/
theorem splitScan_mem_iff (metas : List MetaFile) (hnd : (metas.map MetaFile.path).Nodup)
    (m : MetaFile) (hm : m ∈ metas) :
    (m.path ∈ (splitScan metas).left ↔ "left" ∈ m.sides) ∧
    (m.path ∈ (splitScan metas).right ↔ "right" ∈ m.sides) := by
  have key : ∀ side : String,
      (m.path ∈ sortedDedup ((metas.filter fun mf => mf.sides.contains side).map MetaFile.path)
        ↔ side ∈ m.sides) := by
    intro side
    rw [mem_sortedDedup]
    simp only [List.mem_map, List.mem_filter]
    constructor
    · rintro ⟨m', ⟨hm', hside⟩, hpath⟩
      have hmm : m' = m := List.inj_on_of_nodup_map hnd hm' hm hpath
      subst hmm
      simpa using hside
    · intro hside
      exact ⟨m, ⟨hm, by simpa using hside⟩, rfl⟩
  exact ⟨key "left", key "right"⟩

/-- Witness for C4 on a two-sequence tree: one bimanual sequence, one with
no recorded sides. -/
theorem splitScan_mem_iff_witness :
    ((MetaFile.mk "a" ["left", "right"]).path ∈
        (splitScan [⟨"a", ["left", "right"]⟩, ⟨"b", []⟩]).left ↔
      "left" ∈ (MetaFile.mk "a" ["left", "right"]).sides) ∧
    ((MetaFile.mk "a" ["left", "right"]).path ∈
        (splitScan [⟨"a", ["left", "right"]⟩, ⟨"b", []⟩]).right ↔
      "right" ∈ (MetaFile.mk "a" ["left", "right"]).sides) :=
  splitScan_mem_iff [⟨"a", ["left", "right"]⟩, ⟨"b", []⟩] (by decide)
    ⟨"a", ["left", "right"]⟩ (by decide)

theorem parseRow_id {p : String} (h1 : p ≠ "") (h2 : pyStrip p = p)
    (h3 : startsWithHash p = false) : parseRow p = some p := by
  unfold parseRow
  rw [if_neg h1]
  simp only [h2]
  rw [if_neg h1, if_neg (by rw [h3]; simp)]

theorem parseListing_id {l : List String}
    (h : ∀ p ∈ l, p ≠ "" ∧ pyStrip p = p ∧ startsWithHash p = false) :
    parseListing l = l := by
  induction l with
  | nil => rfl
  | cons a as ih =>
    obtain ⟨h1, h2, h3⟩ := h a (List.mem_cons_self a as)
    have ha := parseRow_id h1 h2 h3
    have has := ih fun p hp => h p (List.mem_cons_of_mem a hp)
    simp only [parseListing, List.filterMap_cons, ha] at *
    rw [has]

/-- C5 counterexample: a split result whose fragment starts with `#` (a legal
directory name) does not round-trip — the listing parser drops it as a
comment line, so loading returns the empty list. -/
theorem persist_load_comment_counterexample :
    (splitScan [⟨"#a", ["left"]⟩]).left = ["#a"] ∧
    read_side_paths (write_yaml "/data") (persistFiles (splitScan [⟨"#a", ["left"]⟩]))
      "left" = .ok [] := by
  exact ⟨rfl, rfl⟩

/-- C5 amended: for split results whose fragments are nonempty, contain no
leading/trailing whitespace, and do not start with `#` (true of the
normalized sequence paths the scanner emits for ordinary directory names),
persisting and loading returns exactly the same list for each side; blank
or `#`-prefixed fragments are dropped by the listing parser's comment rules. -/
theorem persist_load_roundtrip (root : String) (sp : SplitResult)
    (hL : ∀ p ∈ sp.left, p ≠ "" ∧ pyStrip p = p ∧ startsWithHash p = false)
    (hR : ∀ p ∈ sp.right, p ≠ "" ∧ pyStrip p = p ∧ startsWithHash p = false) :
    read_side_paths (write_yaml root) (persistFiles sp) "left" = .ok sp.left ∧
    read_side_paths (write_yaml root) (persistFiles sp) "right" = .ok sp.right := by
  constructor
  · show Except.ok (parseListing sp.left) = Except.ok sp.left
    rw [parseListing_id hL]
  · show Except.ok (parseListing sp.right) = Except.ok sp.right
    rw [parseListing_id hR]

/-- Witness for C5 (amended) at a one-fragment-per-side split. -/
theorem persist_load_roundtrip_witness :
    read_side_paths (write_yaml "/r") (persistFiles ⟨["b"], ["a"]⟩) "left" =
      .ok (SplitResult.mk ["b"] ["a"]).left ∧
    read_side_paths (write_yaml "/r") (persistFiles ⟨["b"], ["a"]⟩) "right" =
      .ok (SplitResult.mk ["b"] ["a"]).right :=
  persist_load_roundtrip "/r" ⟨["b"], ["a"]⟩ (by decide) (by decide)

/-! ### Quaternion to axis-angle (C2) -/

/-- C2 counterexample: the quaternion `(w, x, y, z) = (-1, 1, 0, 0)` gets the
angle `2*atan(1/(-1)) = -π/2`, which is negative — outside the claimed
interval `[0, π]`. -/
theorem quatAngle_negative_counterexample :
    quatAngle ⟨-1, 1, 0, 0⟩ = -(Real.pi / 2) ∧ ¬(0 ≤ quatAngle ⟨-1, 1, 0, 0⟩) := by
  have hn : qNorm ⟨-1, 1, 0, 0⟩ = 1 := by
    show Real.sqrt ((1 : ℝ) ^ 2 + 0 ^ 2 + 0 ^ 2) = 1
    norm_num
  have hval : quatAngle ⟨-1, 1, 0, 0⟩ = -(Real.pi / 2) := by
    unfold quatAngle
    rw [if_neg (by norm_num)]
    rw [show (⟨-1, 1, 0, 0⟩ : Quat).e0 = -1 from rfl, hn]
    rw [show (1 : ℝ) / (-1) = -1 by norm_num]
    rw [show (-1 : ℝ) = -(1 : ℝ) from rfl, Real.arctan_neg, Real.arctan_one]
    ring
  refine ⟨hval, ?_⟩
  rw [hval]
  have hpi := Real.pi_pos
  intro hcon
  linarith

/-- C2 amended: per element the axis always has unit Euclidean norm, the
angle is `π` exactly when `w = 0` and `2*atan(n/w)` otherwise, and the angle
lies in `(-π, π]` in general — it lies in `[0, π]` when `w ≥ 0`, but is
negative for `w < 0, n > 0`. -/
theorem quat_axis_angle_spec (q : Quat) :
    norm3 (quatAxis q) = 1 ∧
    (q.e0 = 0 → quatAngle q = Real.pi) ∧
    (q.e0 ≠ 0 → quatAngle q = 2 * Real.arctan (qNorm q / q.e0)) ∧
    (quatAngle q = Real.pi ↔ q.e0 = 0) ∧
    (-Real.pi < quatAngle q ∧ quatAngle q ≤ Real.pi) ∧
    (0 ≤ q.e0 → 0 ≤ quatAngle q) := by
  have hpi := Real.pi_pos
  have hnn : 0 ≤ qNorm q := Real.sqrt_nonneg _
  have hnormsq : qNorm q ^ 2 = q.e1 ^ 2 + q.e2 ^ 2 + q.e3 ^ 2 :=
    Real.sq_sqrt (by positivity)
  have hax : norm3 (quatAxis q) = 1 := by
    unfold quatAxis norm3
    by_cases h : qNorm q = 0
    · rw [if_pos h]
      norm_num
    · rw [if_neg h]
      have hsum : (q.e1 / qNorm q) ^ 2 + (q.e2 / qNorm q) ^ 2 + (q.e3 / qNorm q) ^ 2 = 1 := by
        field_simp
        rw [← hnormsq]
      simp only []
      rw [hsum, Real.sqrt_one]
  have harc : ∀ x : ℝ, -(Real.pi / 2) < Real.arctan x ∧ Real.arctan x < Real.pi / 2 :=
    fun x => ⟨Real.neg_pi_div_two_lt_arctan x, Real.arctan_lt_pi_div_two x⟩
  by_cases h0 : q.e0 = 0
  · have hval : quatAngle q = Real.pi := by
      unfold quatAngle
      rw [if_pos h0]
    refine ⟨hax, fun _ => hval, fun hne => absurd h0 hne, ?_, ?_, fun _ => ?_⟩
    · exact ⟨fun _ => h0, fun _ => hval⟩
    · rw [hval]
      constructor
      · linarith
      · exact le_refl _
    · rw [hval]
      linarith
  · have hval : quatAngle q = 2 * Real.arctan (qNorm q / q.e0) := by
      unfold quatAngle
      rw [if_neg h0]
    obtain ⟨hlo, hhi⟩ := harc (qNorm q / q.e0)
    refine ⟨hax, fun he => absurd he h0, fun _ => hval, ?_, ?_, ?_⟩
    · constructor
      · intro hcon
        rw [hval] at hcon
        linarith
      · intro he
        exact absurd he h0
    · rw [hval]
      constructor
      · linarith
      · linarith
    · intro hge
      have hpos : 0 < q.e0 := lt_of_le_of_ne hge (Ne.symm h0)
      have hratio : 0 ≤ qNorm q / q.e0 := div_nonneg hnn (le_of_lt hpos)
      have harct : 0 ≤ Real.arctan (qNorm q / q.e0) := by
        have := Real.arctan_strictMono.monotone hratio
        rwa [Real.arctan_zero] at this
      rw [hval]
      linarith

/-- Witness for C2 (amended) at the identity quaternion `(1, 0, 0, 0)`:
unit axis, and the nonzero-`w` branch applies with a nonnegative angle. -/
theorem quat_axis_angle_spec_witness :
    norm3 (quatAxis ⟨1, 0, 0, 0⟩) = 1 ∧
    quatAngle ⟨1, 0, 0, 0⟩ = 2 * Real.arctan (qNorm ⟨1, 0, 0, 0⟩ / (1 : ℝ)) ∧
    0 ≤ quatAngle ⟨1, 0, 0, 0⟩ :=
  ⟨(quat_axis_angle_spec ⟨1, 0, 0, 0⟩).1,
   (quat_axis_angle_spec ⟨1, 0, 0, 0⟩).2.2.1 (by norm_num),
   (quat_axis_angle_spec ⟨1, 0, 0, 0⟩).2.2.2.2.2 (by norm_num)⟩

/-! ### Per-frame array lengths (C7) -/

theorem set_mano_lengths {pose_m : List (List (List ℝ))} {hp ht : List (List ℝ)}
    (h : set_mano pose_m = some (hp, ht)) :
    hp.length = pose_m.length ∧ ht.length = pose_m.length := by
  unfold set_mano at h
  rcases hmm : mapOpt (fun frame => frame.get? 0) pose_m with _ | p
  · rw [hmm] at h
    simp at h
  · rw [hmm] at h
    simp only [Option.some.injEq, Prod.mk.injEq] at h
    obtain ⟨h1, h2⟩ := h
    have hlen := mapOpt_length hmm
    constructor
    · rw [← h1, List.length_map, hlen]
    · rw [← h2, List.length_map, hlen]

theorem split_pose_y_lengths {pose_y : List (List (List ℝ))} {gi : Nat}
    {rot : List (ℝ × ℝ × ℝ)} {trans quat : List (List ℝ)}
    (h : split_pose_y pose_y gi = some (rot, trans, quat)) :
    rot.length = pose_y.length ∧ trans.length = pose_y.length := by
  unfold split_pose_y at h
  by_cases hsh : pose_y.all (fun frame => frame.all fun row => row.length == 7)
  · rw [if_pos hsh] at h
    rcases hmm : mapOpt (fun frame => frame.get? gi) pose_y with _ | X
    · rw [hmm] at h
      simp at h
    · rw [hmm] at h
      simp only [Option.some.injEq, Prod.mk.injEq] at h
      obtain ⟨h1, h2, _⟩ := h
      have hlen := mapOpt_length hmm
      constructor
      · rw [← h1, List.length_map, hlen]
      · rw [← h2, List.length_map, hlen]
  · rw [if_neg hsh] at h
    simp at h

theorem read_pose_lengths {pose_m pose_y : List (List (List ℝ))} {gi : Nat} {pd : PoseData}
    (h : read_pose pose_m pose_y gi = some pd) :
    pd.handPose.length = pose_m.length ∧ pd.handTrans.length = pose_m.length ∧
    pd.objRot.length = pose_y.length ∧ pd.objTrans.length = pose_y.length := by
  unfold read_pose at h
  rcases hsm : set_mano pose_m with _ | hpht
  · rw [hsm] at h
    simp at h
  · rw [hsm] at h
    obtain ⟨hp, ht⟩ := hpht
    rcases hsp : split_pose_y pose_y gi with _ | rtq
    · rw [hsp] at h
      simp at h
    · rw [hsp] at h
      obtain ⟨rot, trans, quat⟩ := rtq
      simp only [Option.some.injEq] at h
      obtain ⟨h1, h2⟩ := set_mano_lengths hsm
      obtain ⟨h3, h4⟩ := split_pose_y_lengths hsp
      rw [← h]
      exact ⟨h1, h2, h3, h4⟩

/-- C7 counterexample: a parse that succeeds with `num_frames = 5` in the
metadata while the archive holds 3 hand frames and 2 object frames — the
four per-frame arrays neither share one leading length nor match
`frameCount`, because nothing in the loader checks them against each other. -/
theorem parse_frame_lengths_counterexample :
    ∃ rec, parseSequence ["right"] (some 5) [1] (some 0)
        (List.replicate 3 [List.replicate 51 (0 : ℝ)])
        (List.replicate 2 [List.replicate 7 (0 : ℝ)]) = .ok rec ∧
      rec.num_frames = 5 ∧
      rec.pose.handPose.length = 3 ∧ rec.pose.handTrans.length = 3 ∧
      rec.pose.objRot.length = 2 ∧ rec.pose.objTrans.length = 2 := by
  exact ⟨_, rfl, rfl, rfl, rfl, rfl, rfl⟩

/-- C7 amended: after a successful parse, `handPose`/`handTrans` share the
hand archive's frame count and `objRot`/`objTrans` share the object
archive's frame count; when both archives hold exactly `frameCount` frames
(as well-formed dexYCB archives do) all four arrays share the leading
length `frameCount`.  The loader itself never validates this agreement. -/
theorem parse_frame_lengths (sides : List String) (nf? : Option Nat) (ids : List Int)
    (g? : Option Int) (pose_m pose_y : List (List (List ℝ))) (rec : SeqRecord)
    (h : parseSequence sides nf? ids g? pose_m pose_y = .ok rec)
    (hm : pose_m.length = rec.num_frames) (hy : pose_y.length = rec.num_frames) :
    rec.pose.handPose.length = rec.num_frames ∧
    rec.pose.handTrans.length = rec.num_frames ∧
    rec.pose.objRot.length = rec.num_frames ∧
    rec.pose.objTrans.length = rec.num_frames := by
  unfold parseSequence at h
  split at h
  · exact absurd h (by simp)
  next ycb hy1 =>
    split at h
    · exact absurd h (by simp)
    next side nf hy2 =>
      split at h
      next pd hy3 =>
        obtain ⟨l1, l2, l3, l4⟩ := read_pose_lengths hy3
        have hrec := Except.ok.inj h
        subst hrec
        exact ⟨by rw [l1]; exact hm, by rw [l2]; exact hm,
          by rw [l3]; exact hy, by rw [l4]; exact hy⟩
      next hy3 => exact absurd h (by simp)

/-- Witness for C7 (amended) on a consistent one-frame sequence. -/
theorem parse_frame_lengths_witness :
    ∃ rec, parseSequence ["right"] (some 1) [1] (some 0)
        [[List.replicate 51 (0 : ℝ)]] [[List.replicate 7 (0 : ℝ)]] = .ok rec ∧
      rec.pose.handPose.length = rec.num_frames ∧
      rec.pose.handTrans.length = rec.num_frames ∧
      rec.pose.objRot.length = rec.num_frames ∧
      rec.pose.objTrans.length = rec.num_frames := by
  obtain ⟨rec, hrec⟩ : ∃ rec, parseSequence ["right"] (some 1) [1] (some 0)
      [[List.replicate 51 (0 : ℝ)]] [[List.replicate 7 (0 : ℝ)]] = .ok rec := ⟨_, rfl⟩
  have h1 : rec.num_frames = 1 := by
    rw [← Except.ok.inj hrec]
    rfl
  exact ⟨rec, hrec,
    parse_frame_lengths ["right"] (some 1) [1] (some 0) _ _ rec hrec
      (by rw [h1]; rfl) (by rw [h1]; rfl)⟩

/-- Witness for C3 (amended) at candidates `[2, 5]` with grasp index 1. -/
theorem set_ycb_validation_spec_witness :
    ((∃ e, set_ycb [2, 5] (some 1) = .error e) ↔
      (([2, 5] : List Int) = [] ∨ (some (1 : Int)).getD (-1) < 0 ∨
        ((([2, 5] : List Int).length : Int) ≤ (some (1 : Int)).getD (-1)))) ∧
    ((([2, 5] : List Int) ≠ [] ∧ 0 ≤ (some (1 : Int)).getD (-1) ∧
        (some (1 : Int)).getD (-1) < (([2, 5] : List Int).length : Int)) →
      ∃ info, set_ycb [2, 5] (some 1) = .ok info ∧
        info.grasp_ind = ((some (1 : Int)).getD (-1)).toNat ∧
        info.grasp_idx = ([2, 5] : List Int).getD ((some (1 : Int)).getD (-1)).toNat 0 ∧
        ycb_id_to_name info.grasp_idx = .ok info.objName) :=
  set_ycb_validation_spec [2, 5] (some 1) (by decide)

end DexYCB
